import Mathlib

/-!
Verification development for the SillyTavern-Roadway extension (src/index.ts).

The development shallowly embeds the parts of the source that the properties
under scrutiny are about:

* `extractBulletPoints` (src lines 530-537): the regex-based bullet extractor,
  embedded as an operational model of the two fixed ECMAScript regexes it uses
  (a global case-insensitive non-greedy removal of reasoning blocks, and a
  global multiline line scanner).  The embedding follows ECMAScript semantics:
  `\s` matches line terminators as well as ordinary whitespace, `.` matches any
  character except the four line terminators, and with the `m` flag `^`/`$`
  anchor at those same terminators.
* the `generateRoadway` flow (src lines 331-446): its state effects (in-flight
  set, busy indicator, chat upsert, warnings/errors, host dispatch counting)
  embedded as pure state transformers, with the host services (buildPrompt,
  sendRequest, saveChat) as `Except`-valued parameters.
* the preset-store callbacks of `buildPresetSelect` (src lines 122-159) and the
  per-option edit handler (src lines 710-751).
-/

namespace Roadway

/-! ## Character classes of the ECMAScript regexes -/

/-- ECMAScript `\s`: WhiteSpace plus LineTerminator code points.  This is also
exactly the set `String.prototype.trim` removes. -/
def jsWs (c : Char) : Bool :=
  c == '\t' || c == '\n' || c == '\x0b' || c == '\x0c' || c == '\r' || c == ' ' ||
  c == '\u00A0' || c == '\u1680' || ('\u2000' ≤ c && c ≤ '\u200A') || c == '\u2028' ||
  c == '\u2029' || c == '\u202F' || c == '\u205F' || c == '\u3000' || c == '\uFEFF'

/-- ECMAScript LineTerminator: the code points at which `^`/`$` anchor under the
`m` flag and which `.` does not match. -/
def lineTerm (c : Char) : Bool :=
  c == '\n' || c == '\r' || c == '\u2028' || c == '\u2029'

/-- Case-insensitive character comparison as the `i` flag canonicalises the
ASCII letters of the patterns `<think>` and `</think>`. -/
def ciEq (a b : Char) : Bool := a.toLower == b.toLower

/-! ## Removal of `<think>...</think>` blocks (src line 532)

`text.replace(/<think>[\s\S]*?<\/think>/gi, '')`: scan left to right; at a
position where the case-insensitive literal `<think>` matches, the lazy
`[\s\S]*?` extends to the earliest following case-insensitive `</think>`; the
whole match is removed and scanning resumes after it.  Otherwise the character
is kept and scanning advances by one. -/

def openTag : List Char := ['<', 't', 'h', 'i', 'n', 'k', '>']

def closeTag : List Char := ['<', '/', 't', 'h', 'i', 'n', 'k', '>']

/-- If `s` starts with the pattern `pat` up to `ciEq`, return the rest of `s`
after that prefix. -/
def dropTagCi : List Char → List Char → Option (List Char)
  | [], s => some s
  | _ :: _, [] => none
  | p :: ps, c :: cs => if ciEq c p then dropTagCi ps cs else none

/-- Scan for the earliest case-insensitive occurrence of `</think>`; return the
suffix just after it.  This is the lazy `[\s\S]*?<\/think>` search. -/
def findClose : List Char → Option (List Char)
  | [] => none
  | c :: cs =>
    match dropTagCi closeTag (c :: cs) with
    | some r => some r
    | none => findClose cs

/-- Fuel-indexed scanner of the global replace; the fuel dominates the input
length, so with `fuel = s.length` it computes the full replacement. -/
def stripGo : Nat → List Char → List Char
  | 0, s => s
  | _ + 1, [] => []
  | fuel + 1, c :: cs =>
    match dropTagCi openTag (c :: cs) with
    | some afterOpen =>
      match findClose afterOpen with
      | some afterClose => stripGo fuel afterClose
      | none => c :: stripGo fuel cs
    | none => c :: stripGo fuel cs

/-- `text.replace(/<think>[\s\S]*?<\/think>/gi, '')` on a character list. -/
def stripThinkL (s : List Char) : List Char := stripGo s.length s

/-- The same removal as a `String → String` function: "the text with every
delimited segment removed" in the words of the specification. -/
def stripThinkStr (s : String) : String := (stripThinkL s.data).asString

/-- Whether a case-insensitive occurrence of `<think>` exists anywhere. -/
def hasOpenTag : List Char → Bool
  | [] => false
  | c :: cs => (dropTagCi openTag (c :: cs)).isSome || hasOpenTag cs

/-- Whether a full delimiter pair exists: an occurrence of `<think>` followed
somewhere later by `</think>` (the condition for the removal regex to match). -/
def hasThinkPair : List Char → Bool
  | [] => false
  | c :: cs =>
    (match dropTagCi openTag (c :: cs) with
     | some afterOpen => (findClose afterOpen).isSome
     | none => false) || hasThinkPair cs

/-! ## The line scanner (src lines 533-536)

`cleanedText.match(/^(?:\d+\.(?:\s+|(?=\S))|-\s+)(.*)$/gm)` followed by
stripping the same leading-marker pattern from every match and trimming.

At a line start the regex tries, in order:
* `\d+\.` — a maximal nonempty digit run followed by `.`, then either `\s+`
  (a maximal nonempty whitespace run, which, `\s` matching line terminators,
  may continue across line ends) or the lookahead `(?=\S)` (the next character
  exists and is not whitespace);
* `-\s+` — a hyphen followed by a maximal nonempty whitespace run.

`(.*)$` then captures the remaining characters of the line on which the marker
(and its whitespace run) ended.  `line.replace(/^.../, '')` removes exactly the
marker again, so each produced element is the trimmed captured body. -/

/-- `(?:\s+|(?=\S))` after the digit-period head: consume a maximal nonempty
whitespace run, or else require a next non-whitespace character. -/
def markerTail (rest : List Char) : Option (List Char) :=
  if (rest.takeWhile jsWs).isEmpty then (if rest.isEmpty then Option.none else some rest)
  else some (rest.drop (rest.takeWhile jsWs).length)

/-- `\d+\.` followed by `markerTail`. -/
def markerNum (s : List Char) : Option (List Char) :=
  if (s.takeWhile Char.isDigit).isEmpty then Option.none
  else
    match s.drop (s.takeWhile Char.isDigit).length with
    | '.' :: rest => markerTail rest
    | _ => Option.none

/-- `-\s+`. -/
def markerDash (s : List Char) : Option (List Char) :=
  match s with
  | '-' :: rest =>
    if (rest.takeWhile jsWs).isEmpty then Option.none
    else some (rest.drop (rest.takeWhile jsWs).length)
  | _ => Option.none

/-- One attempt of the marker alternation at a line-start position: when the
marker matches, return the suffix at which the captured body starts (the two
alternatives tried in the regex's left-to-right order). -/
def parseMarker (s : List Char) : Option (List Char) :=
  (markerNum s).orElse (fun _ => markerDash s)

/-- Fuel-indexed global scan: at each line start try the marker; on a match,
emit the captured body (the characters up to the next line terminator) and
resume at the following line; otherwise skip to the next line. -/
def scanGo : Nat → List Char → List (List Char)
  | 0, _ => []
  | _ + 1, [] => []
  | fuel + 1, c :: cs =>
    match parseMarker (c :: cs) with
    | some bodyStart =>
      let body := bodyStart.takeWhile (fun c => !lineTerm c)
      body :: scanGo fuel ((bodyStart.drop body.length).drop 1)
    | none => scanGo fuel (((c :: cs).dropWhile (fun c => !lineTerm c)).drop 1)

/-- All captured bodies of the global multiline match. -/
def extractScanL (s : List Char) : List (List Char) := scanGo s.length s

/-- `String.prototype.trim` (same character class as `\s`). -/
def trimChars (s : List Char) : List Char :=
  ((s.dropWhile jsWs).reverse.dropWhile jsWs).reverse

/-- `extractBulletPoints` (src lines 530-537). -/
def extractBulletPoints (text : String) : List String :=
  (extractScanL (stripThinkL text.data)).map (fun b => (trimChars b).asString)

/-! ## The specification's line-by-line description of the extractor

The claims describe extraction per line: split the (reasoning-stripped) text
into lines, keep exactly the lines starting with an integer-period marker
(followed by whitespace or directly by text) or a hyphen-whitespace marker,
strip the marker and surrounding whitespace, preserve order.  This second
definition follows those words; it is compared with the source model above. -/

/-- Split at every line terminator ("a\r\nb" has an empty line between the two
terminators, which can never carry a marker). -/
def splitLines : List Char → List (List Char)
  | [] => [[]]
  | c :: cs =>
    if lineTerm c then [] :: splitLines cs
    else
      match splitLines cs with
      | l :: ls => (c :: l) :: ls
      | [] => [[c]]

/-- The claim's extractor: per line, keep marker lines, strip marker and trim. -/
def specLineExtract (text : String) : List String :=
  (splitLines (stripThinkL text.data)).filterMap
    (fun line => (parseMarker line).map (fun b => (trimChars b).asString))

/-- A line consisting of nothing but a marker head and trailing whitespace up
to the line end: the one shape on which the scanner's whitespace run crosses
the line terminator and absorbs the following line. -/
def markerWsToEol (line : List Char) : Bool :=
  (!(line.takeWhile Char.isDigit).isEmpty &&
     match line.drop (line.takeWhile Char.isDigit).length with
     | '.' :: rest => (rest.dropWhile jsWs).isEmpty
     | _ => false) ||
  (match line with
   | '-' :: rest => (rest.dropWhile jsWs).isEmpty
   | _ => false)

/-- No line before the last is a bare marker running out in whitespace. -/
def noAbsorb (s : List Char) : Bool :=
  (splitLines s).dropLast.all (fun l => !markerWsToEol l)

/-! ## Data model of the generation flow (src lines 19-50, 328-446)

Chat messages carry the roadway side-channel fields in `extra`; absent fields
are `Option.none`.  DOM rendering is abstracted to the structural alternative
`formatResponse` chooses between (src lines 468-527): a list of interactive
option rows, or a preformatted block with the raw text. -/

inductive ExtractionStrategy
  | bullet
  | none
deriving DecidableEq

/-- A prompt preset (src lines 28-32). -/
structure PromptPreset where
  content : String
  extractionStrategy : ExtractionStrategy
  impersonate : Option String
deriving DecidableEq

/-- The structural content of `formatResponse`'s markup (src lines 468-527):
either one row per option or a single preformatted block of the raw text. -/
inductive MesBody
  | optionRows (options : List String)
  | rawText (text : String)
deriving DecidableEq

/-- `formatResponse(response, options)` (src line 474: `if (options?.length)`):
option rows when a nonempty option list is passed, otherwise the raw text. -/
def formatResponse (response : String) (options : Option (List String)) : MesBody :=
  match options with
  | some opts => if opts.length ≠ 0 then .optionRows opts else .rawText response
  | none => .rawText response

/-- A chat message with the roadway `extra` fields (src lines 406-418):
`target` is `extra[roadway_target_chat]`, `rawContent` is
`extra[roadway_raw_content]`, `options` is `extra[roadway_options]`. -/
structure ChatMessage where
  mes : MesBody
  name : String
  is_system : Bool
  is_user : Bool
  isSmallSys : Bool
  target : Option Nat
  rawContent : Option String
  options : Option (List String)
deriving DecidableEq

/-- The host's system persona name (`systemUserName` from the host config; its
exact value is irrelevant to every claim). -/
def systemUserName : String := "SillyTavern System"

/-- User-visible strings of the flow (src lines 334, 338, 357, 397). -/
def noProfileError : String := "Please select a connection profile first in the settings."

def noPromptError : String := "Please enter a prompt first in the settings."

def dupRequestWarning : String := "A request for this message is already in progress. Please wait."

def emptyExtractionWarning : String :=
  "Could not extract any bullet points from the response. Using original response."

/-- `${index + 1}. ${action}` numbering starting at `k` (src line 402). -/
def numberLines (k : Nat) : List String → List String
  | [] => []
  | a :: as => (Nat.repr k ++ ". " ++ a) :: numberLines (k + 1) as

/-- `Array.prototype.join('\n')`. -/
def joinLines : List String → String
  | [] => ""
  | [a] => a
  | a :: as => a ++ "\n" ++ joinLines as

/-- `actions.map((action, index) => ...).join('\n')` (src lines 401-402). -/
def renderNumbered (actions : List String) : String := joinLines (numberLines 1 actions)

/-- The annotation upsert (src lines 405-431).  The first chat message whose
target field equals `targetId` is updated in place (`newMessage` aliases
`existMessage`, so the assignments on lines 421-423 mutate it: `mes` is
re-rendered, `rawContent` is set to the raw response `content`, `options` to
`actions`); otherwise a fresh system message is pushed whose `rawContent` is
the display text `innerText` (src line 415). -/
def upsertRoadwayMessage (chat : List ChatMessage) (targetId : Nat)
    (content innerText : String) (actions : List String)
    (strategy : Option ExtractionStrategy) : List ChatMessage :=
  let fmtOpts : Option (List String) :=
    if strategy = some ExtractionStrategy.bullet then some actions else Option.none
  let i := chat.findIdx (fun m => m.target == some targetId)
  if h : i < chat.length then
    chat.set i
      { chat.get ⟨i, h⟩ with
        mes := formatResponse innerText fmtOpts
        rawContent := some content
        options := some actions }
  else
    chat ++ [{ mes := formatResponse innerText fmtOpts
               name := systemUserName
               is_system := true
               is_user := false
               isSmallSys := true
               target := some targetId
               rawContent := some innerText
               options := some actions }]

/-! ## The generation flow as a state machine

`generateRoadway` suspends at each awaited host call.  For the claims about
interleaving, the flow is split at the `sendRequest` dispatch: `generateBegin`
is the part up to and including the dispatch, `generateFinish` the part from
the response on.  The `finally` block (src lines 442-445) runs on every exit
path out of the `try`, including the early `return` of the duplicate check. -/

/-- Observable state shared by flow runs: the `pendingRequests` set, the
spinner class on the buttons, the chat array, and counters/logs of the
emitted effects. -/
structure RoadwayState where
  pending : List Nat
  spinning : Bool
  chat : List ChatMessage
  warnings : List String
  errors : List String
  logged : List String
  hostRequests : Nat
  saveCalls : Nat
deriving DecidableEq

/-- Relevant settings (src lines 333-345, 393). -/
structure FlowCfg where
  profileId : String
  promptPreset : String
  promptPresets : List (String × PromptPreset)
deriving DecidableEq

deriving instance DecidableEq for Except

/-- Outcomes of the awaited host services, as parameters of the model. -/
structure HostEnv where
  buildPromptResult : Except String Unit
  sendResult : Except String String
  saveResult : Except String Unit
deriving DecidableEq

/-- `Set.prototype.add`. -/
def jsSetAdd (s : List Nat) (x : Nat) : List Nat := if x ∈ s then s else s ++ [x]

/-- `Set.prototype.delete`. -/
def jsSetDelete (s : List Nat) (x : Nat) : List Nat := s.filter (fun y => y != x)

inductive BeginOutcome
  | noProfile
  | noPreset
  | noTarget
  | rejected
  | threw (e : String)
  | dispatched
deriving DecidableEq

/-- `generateRoadway` up to and including the `sendRequest` dispatch (src lines
331-390).  The precondition checks and the target lookup happen before the
`try`, so their early returns do not touch the in-flight set; the duplicate
check's early return is inside the `try`, so its `finally` deletes the id and
clears the spinner. -/
def generateBegin (st : RoadwayState) (cfg : FlowCfg) (env : HostEnv)
    (targetMessageId : Nat) : RoadwayState × BeginOutcome :=
  if cfg.profileId = "" then
    ({ st with errors := st.errors ++ [noProfileError] }, .noProfile)
  else if cfg.promptPreset = "" then
    ({ st with errors := st.errors ++ [noPromptError] }, .noPreset)
  else if targetMessageId < st.chat.length then
    if targetMessageId ∈ st.pending then
      ({ st with
          warnings := st.warnings ++ [dupRequestWarning]
          pending := jsSetDelete st.pending targetMessageId
          spinning := false }, .rejected)
    else
      let st1 := { st with pending := jsSetAdd st.pending targetMessageId, spinning := true }
      match env.buildPromptResult with
      | .error e =>
        ({ st1 with
            logged := st1.logged ++ [e]
            errors := st1.errors ++ [e]
            pending := jsSetDelete st1.pending targetMessageId
            spinning := false }, .threw e)
      | .ok _ => ({ st1 with hostRequests := st1.hostRequests + 1 }, .dispatched)
  else (st, .noTarget)

/-- `generateRoadway` from the `sendRequest` response on (src lines 390-446):
extraction, the empty-extraction warning, the annotation upsert, `saveChat`,
the `catch` (log + user-visible error) and the `finally` (delete the id from
the in-flight set, clear the spinner). -/
def generateFinish (st : RoadwayState) (cfg : FlowCfg) (env : HostEnv)
    (targetMessageId : Nat) : RoadwayState :=
  match env.sendResult with
  | .error e =>
    { st with
      logged := st.logged ++ [e]
      errors := st.errors ++ [e]
      pending := jsSetDelete st.pending targetMessageId
      spinning := false }
  | .ok content =>
    let strategy := (cfg.promptPresets.lookup cfg.promptPreset).map (fun p => p.extractionStrategy)
    let actions :=
      if strategy = some ExtractionStrategy.bullet then extractBulletPoints content else []
    let st1 :=
      if strategy = some ExtractionStrategy.bullet ∧ actions = [] then
        { st with warnings := st.warnings ++ [emptyExtractionWarning] }
      else st
    let innerText := if actions = [] then content else renderNumbered actions
    let st2 := { st1 with
      chat := upsertRoadwayMessage st1.chat targetMessageId content innerText actions strategy
      saveCalls := st1.saveCalls + 1 }
    match env.saveResult with
    | .error e =>
      { st2 with
        logged := st2.logged ++ [e]
        errors := st2.errors ++ [e]
        pending := jsSetDelete st2.pending targetMessageId
        spinning := false }
    | .ok _ =>
      { st2 with pending := jsSetDelete st2.pending targetMessageId, spinning := false }

/-- A whole uninterleaved run of `generateRoadway`. -/
def runGenerateRoadway (st : RoadwayState) (cfg : FlowCfg) (env : HostEnv)
    (targetMessageId : Nat) : RoadwayState × BeginOutcome :=
  match generateBegin st cfg env targetMessageId with
  | (s1, BeginOutcome.dispatched) => (generateFinish s1 cfg env targetMessageId, .dispatched)
  | (s1, o) => (s1, o)

/-! ## The per-option edit handler (src lines 710-751) -/

/-- `arr[i] = v` on a JavaScript array: in range it overwrites, past the end it
lengthens the array (holes modelled as empty strings; the claims only concern
in-range indices). -/
def jsArraySet (l : List String) (i : Nat) (v : String) : List String :=
  if i < l.length then l.set i v
  else l ++ List.replicate (i - l.length) "" ++ [v]

/-- The blur commit of the edit handler (src lines 731-742): look up the chat
message at index `mid`; when it carries an options list, write `newText` at
position `idx` and call `saveChat` once.  Returns the new chat and the number
of `saveChat` calls. -/
def commitEdit (chat : List ChatMessage) (mid idx : Nat) (newText : String) :
    List ChatMessage × Nat :=
  match chat.get? mid with
  | some msg =>
    match msg.options with
    | some opts =>
      (chat.set mid { msg with options := some (jsArraySet opts idx newText) }, 1)
    | Option.none => (chat, 0)
  | Option.none => (chat, 0)

inductive EditKeyEffect
  | commitViaBlur
  | literalNewline
  | browserDefault
deriving DecidableEq

/-- The keydown handler (src lines 745-750): Enter without Shift prevents the
default and triggers the blur commit.  Any other key is left to the browser;
for Enter with Shift in a textarea the untouched default inserts a literal
newline (browser behaviour, recorded here as `literalNewline`). -/
def editKeydownEffect (key : String) (shiftKey : Bool) : EditKeyEffect :=
  if key = "Enter" ∧ shiftKey = false then .commitViaBlur
  else if key = "Enter" then .literalNewline
  else .browserDefault

/-! ## The prompt-preset store (src lines 28-50, 122-159) -/

/-- The settings fields the preset claims are about (src lines 41, 44). -/
structure PresetStore where
  promptPreset : String
  promptPresets : List (String × PromptPreset)
deriving DecidableEq

/-- Property assignment on a JavaScript object (keys are unique): overwrite in
place when the key exists, append otherwise. -/
def recordSet : List (String × PromptPreset) → String → PromptPreset →
    List (String × PromptPreset)
  | [], k, v => [(k, v)]
  | (k0, v0) :: tl, k, v =>
    if k0 == k then (k, v) :: tl else (k0, v0) :: recordSet tl k v

/-- `delete obj[k]`. -/
def recordDelete (m : List (String × PromptPreset)) (k : String) :
    List (String × PromptPreset) :=
  m.filter (fun p => p.1 != k)

/-- The default template texts (src lines 52-70; bodies elided, their exact
wording is irrelevant to every claim). -/
def DEFAULT_PROMPT : String := "default roadway prompt text"

def DEFAULT_IMPERSONATE : String := "default impersonate prompt text"

/-- `onAfterCreate` (src lines 139-146): the new key receives a copy of the
currently selected preset, falling back to the defaults field by field. -/
def onAfterCreate (s : PresetStore) (value : String) : PresetStore :=
  let cur := s.promptPresets.lookup s.promptPreset
  { s with
    promptPresets := recordSet s.promptPresets value
      { content := (cur.map (fun p => p.content)).getD DEFAULT_PROMPT
        extractionStrategy :=
          (cur.map (fun p => p.extractionStrategy)).getD ExtractionStrategy.bullet
        impersonate := some ((cur.bind (fun p => p.impersonate)).getD DEFAULT_IMPERSONATE) } }

/-- `onAfterRename` (src lines 149-152): `presets[new] = presets[old];
delete presets[old]` (the widget only renames existing entries, so the
degenerate missing-key assignment of `undefined` is unreachable). -/
def onAfterRename (s : PresetStore) (previousValue newValue : String) : PresetStore :=
  match s.promptPresets.lookup previousValue with
  | some v =>
    { s with promptPresets := recordDelete (recordSet s.promptPresets newValue v) previousValue }
  | Option.none => s

/-- `onAfterDelete` (src lines 155-157). -/
def onAfterDelete (s : PresetStore) (value : String) : PresetStore :=
  { s with promptPresets := recordDelete s.promptPresets value }

/-- `onSelectChange` (src lines 126-129): `promptPreset := newValue ?? 'default'`. -/
def onSelectChange (s : PresetStore) (newValue : Option String) : PresetStore :=
  { s with promptPreset := newValue.getD "default" }

inductive PresetOp
  | createOp (value : String)
  | renameOp (previousValue newValue : String)
  | deleteOp (value : String)
  | selectOp (value : Option String)

/-- Modelled from the spec: the preset select widget (`buildPresetSelect` from
the host-side utils library, not part of this repository's sources) drives the
callbacks above and keeps its selection on an existing entry — after create it
selects the new entry, after a rename of the selected entry it reports the new
name, and after deleting the selected entry it falls back to the reserved,
non-deletable `"default"` entry. -/
def applyPresetOp (s : PresetStore) : PresetOp → PresetStore
  | .createOp v => onSelectChange (onAfterCreate s v) (some v)
  | .renameOp o n =>
    let s1 := onAfterRename s o n
    if s.promptPreset = o then onSelectChange s1 (some n) else s1
  | .deleteOp v =>
    let s1 := onAfterDelete s v
    if s.promptPreset = v then onSelectChange s1 Option.none else s1
  | .selectOp v => onSelectChange s v

/-- Modelled from the spec: constraints the widget enforces on its operations
(`readOnlyValues: ['default']` makes `"default"` non-renamable and
non-deletable; renames act on an existing entry and change the name; the
select only offers listed keys). -/
def PresetOpWF (s : PresetStore) : PresetOp → Prop
  | .createOp _ => True
  | .renameOp o n =>
    (s.promptPresets.lookup o).isSome ∧ o ≠ "default" ∧ o ≠ n
  | .deleteOp v => v ≠ "default"
  | .selectOp v => ∀ k, v = some k → (s.promptPresets.lookup k).isSome

/-- The spec's invariant: the reserved `"default"` key is present and the
selected name resolves to a present key. -/
def PresetInv (s : PresetStore) : Prop :=
  (s.promptPresets.lookup "default").isSome ∧
  (s.promptPresets.lookup s.promptPreset).isSome


/-! ## Concrete instances used by witnesses and counterexamples -/

/-- An ordinary user chat message (no roadway fields). -/
def demoUserMessage : ChatMessage :=
  { mes := .rawText "hello"
    name := "User"
    is_system := false
    is_user := true
    isSmallSys := false
    target := Option.none
    rawContent := Option.none
    options := Option.none }

def demoPreset : PromptPreset :=
  { content := "prompt body"
    extractionStrategy := ExtractionStrategy.bullet
    impersonate := some "impersonate body" }

def demoCfg : FlowCfg :=
  { profileId := "profile-1"
    promptPreset := "default"
    promptPresets := [("default", demoPreset)] }

def demoEnvOk : HostEnv :=
  { buildPromptResult := .ok ()
    sendResult := .ok "1. A\nextra"
    saveResult := .ok () }

def demoState : RoadwayState :=
  { pending := []
    spinning := false
    chat := [demoUserMessage]
    warnings := []
    errors := []
    logged := []
    hostRequests := 0
    saveCalls := 0 }

def demoStore : PresetStore :=
  { promptPreset := "default"
    promptPresets := [("default", demoPreset), ("old", demoPreset)] }


/-! ## Theorems -/

theorem asString_data (s : String) : s.data.asString = s := rfl

theorem data_asString (l : List Char) : l.asString.data = l := rfl

/-- C3 counterexample: on an input whose removal pass assembles a new delimiter
pair (a nested, split `<think` around an inner block), extraction of the input
differs from extraction of the input with every delimited segment removed,
although the input contains delimiter pairs. -/
theorem extract_thinkRemoval_cex :
    hasThinkPair ("<think<think>A</think>>\n1. B\n</think>" : String).data = true ∧
    extractBulletPoints "<think<think>A</think>>\n1. B\n</think>" = ["B"] ∧
    stripThinkStr "<think<think>A</think>>\n1. B\n</think>" = "<think>\n1. B\n</think>" ∧
    extractBulletPoints (stripThinkStr "<think<think>A</think>>\n1. B\n</think>") = [] := by
  decide

/-- C3 (amended): bullet extraction ignores all content strictly between each
reasoning-block delimiter pair in the sense that the line scan runs on the text
with every delimited segment removed (non-greedy, case-insensitive, spanning
newlines, each block removed separately); consequently, whenever that removal
is idempotent on the input — in particular whenever it does not itself
assemble a new delimiter pair — the result equals extraction applied to the
text with every delimited segment removed. -/
theorem extract_thinkRemoved_of_idempotent (t : String)
    (h : stripThinkStr (stripThinkStr t) = stripThinkStr t) :
    extractBulletPoints t = extractBulletPoints (stripThinkStr t) := by
  have hd : stripThinkL (stripThinkL t.data) = stripThinkL t.data := by
    have h2 := congrArg String.data h
    simpa [stripThinkStr, data_asString] using h2
  simp [extractBulletPoints, stripThinkStr, data_asString, hd]

theorem extract_thinkRemoved_witness :
    stripThinkStr (stripThinkStr "x<think>1. hidden\n</think>\n1. Q\n<THINK>drop</THINK>\n- R")
      = stripThinkStr "x<think>1. hidden\n</think>\n1. Q\n<THINK>drop</THINK>\n- R" ∧
    extractBulletPoints "x<think>1. hidden\n</think>\n1. Q\n<THINK>drop</THINK>\n- R"
      = extractBulletPoints
          (stripThinkStr "x<think>1. hidden\n</think>\n1. Q\n<THINK>drop</THINK>\n- R") :=
  ⟨by decide, extract_thinkRemoved_of_idempotent _ (by decide)⟩

/-- C2 (code bug): with a request for message 0 dispatched and unresolved, a
second request for message 0 is rejected with a warning and dispatches no host
request — but because the duplicate check's early `return` sits inside the
`try`, its `finally` deletes the id from the in-flight set, which therefore
holds zero entries (not one) for the id while the first request is still
unresolved, and a third duplicate request then passes the guard and dispatches
concurrently. -/
theorem inflight_guard_dropped_by_rejected_duplicate :
    (generateBegin demoState demoCfg demoEnvOk 0).2 = .dispatched ∧
    ((generateBegin demoState demoCfg demoEnvOk 0).1).pending = [0] ∧
    ((generateBegin demoState demoCfg demoEnvOk 0).1).hostRequests = 1 ∧
    (generateBegin (generateBegin demoState demoCfg demoEnvOk 0).1 demoCfg demoEnvOk 0).2
      = .rejected ∧
    ((generateBegin (generateBegin demoState demoCfg demoEnvOk 0).1 demoCfg demoEnvOk 0).1).warnings
      = [dupRequestWarning] ∧
    ((generateBegin (generateBegin demoState demoCfg demoEnvOk 0).1 demoCfg demoEnvOk 0).1).hostRequests
      = 1 ∧
    ((generateBegin (generateBegin demoState demoCfg demoEnvOk 0).1 demoCfg demoEnvOk 0).1).pending
      = [] ∧
    (generateBegin
        ((generateBegin (generateBegin demoState demoCfg demoEnvOk 0).1 demoCfg demoEnvOk 0).1)
        demoCfg demoEnvOk 0).2 = .dispatched := by
  decide

/-- C5 counterexample: a fresh annotation (no prior annotation exists for
target 0) produced from the raw model output "1. A\nextra" stores "1. A" — the
rendered display text — in its raw-content field, not the raw output. -/
theorem fresh_rawContent_cex :
    demoEnvOk.sendResult = Except.ok "1. A\nextra" ∧
    ((runGenerateRoadway demoState demoCfg demoEnvOk 0).1).chat.map
        (fun m => (m.target, m.rawContent))
      = [(Option.none, Option.none), (some 0, some "1. A")] ∧
    ("1. A" : String) ≠ "1. A\nextra" := by
  decide

theorem not_mem_jsSetDelete (l : List Nat) (x : Nat) : x ∉ jsSetDelete l x := by
  simp [jsSetDelete]

/-- C5 (amended): every roadway message upserted by the generation flow stores
the target message index and the ordered list of extracted action strings; an
annotation updated in place stores the raw model output in its raw-content
field, while a freshly created annotation stores the display text there — which
equals the raw output exactly when no actions were extracted. -/
theorem rawContent_policy (chat : List ChatMessage) (targetId : Nat)
    (content innerText : String) (actions : List String)
    (strategy : Option ExtractionStrategy)
    (hInner : innerText = if actions = [] then content else renderNumbered actions) :
    (∀ _ : chat.findIdx (fun m => m.target == some targetId) < chat.length,
      ((upsertRoadwayMessage chat targetId content innerText actions
            strategy)[chat.findIdx (fun m => m.target == some targetId)]?).map
          (fun m => (m.target, m.rawContent, m.options))
        = some (some targetId, some content, some actions)) ∧
    (chat.findIdx (fun m => m.target == some targetId) = chat.length →
      ∃ msg : ChatMessage,
        upsertRoadwayMessage chat targetId content innerText actions strategy
          = chat ++ [msg] ∧
        msg.target = some targetId ∧ msg.options = some actions ∧
        msg.rawContent = some innerText ∧
        (actions = [] → msg.rawContent = some content)) := by
  constructor
  · intro h
    have htar : ((chat.get ⟨chat.findIdx (fun m => m.target == some targetId), h⟩).target
        == some targetId) = true := by
      simpa using List.findIdx_getElem (w := h)
    rw [upsertRoadwayMessage, dif_pos h]
    rw [List.getElem?_set_self (by simpa using h)]
    simp only [Option.map_some]
    have h3 : (chat.get ⟨chat.findIdx (fun m => m.target == some targetId), h⟩).target
        = some targetId := by simpa using htar
    rw [List.get_eq_getElem] at h3
    simp [h3]
  · intro h
    have hnot : ¬ chat.findIdx (fun m => m.target == some targetId) < chat.length := by
      omega
    rw [upsertRoadwayMessage, dif_neg hnot]
    refine ⟨_, rfl, rfl, rfl, rfl, ?_⟩
    intro ha
    simp [hInner, ha]

theorem rawContent_policy_witness :
    ((Roadway.demoState.chat.findIdx (fun m => m.target == some 0)
        = Roadway.demoState.chat.length) ∧
      ("1. A" : String) = (if (["A"] : List String) = [] then "1. A\nextra"
        else renderNumbered ["A"])) ∧
    (Roadway.demoState.chat.findIdx (fun m => m.target == some 0)
        = Roadway.demoState.chat.length →
      ∃ msg : ChatMessage,
        upsertRoadwayMessage Roadway.demoState.chat 0 "1. A\nextra" "1. A" ["A"]
            (some ExtractionStrategy.bullet)
          = Roadway.demoState.chat ++ [msg] ∧
        msg.target = some 0 ∧ msg.options = some ["A"] ∧
        msg.rawContent = some "1. A" ∧
        ((["A"] : List String) = [] → msg.rawContent = some "1. A\nextra")) :=
  ⟨⟨by decide, by decide⟩,
    (rawContent_policy Roadway.demoState.chat 0 "1. A\nextra" "1. A" ["A"]
      (some ExtractionStrategy.bullet) (by decide)).2⟩

/-- C4: when the generation flow completes for a target message that already
has a roadway annotation (a chat message whose target field equals the target
id), the existing annotation message is updated in place: no new chat message
is created, the chat length is unchanged, and afterwards the annotation's
stored action list is exactly the list extracted in the latest generation. -/
theorem upsert_inPlace_updates (chat : List ChatMessage) (targetId : Nat)
    (content innerText : String)
    (hfound : ∃ m ∈ chat, m.target = some targetId) :
    (upsertRoadwayMessage chat targetId content innerText (extractBulletPoints content)
        (some ExtractionStrategy.bullet)).length = chat.length ∧
    ((upsertRoadwayMessage chat targetId content innerText (extractBulletPoints content)
        (some ExtractionStrategy.bullet))[chat.findIdx
          (fun m => m.target == some targetId)]?).map (fun m => m.options)
      = some (some (extractBulletPoints content)) := by
  have h : chat.findIdx (fun m => m.target == some targetId) < chat.length := by
    apply List.findIdx_lt_length_of_exists
    obtain ⟨m, hm, hmt⟩ := hfound
    exact ⟨m, hm, by simp [hmt]⟩
  rw [upsertRoadwayMessage, dif_pos h]
  refine ⟨by simp, ?_⟩
  rw [List.getElem?_set_self (by simpa using h)]
  simp

theorem upsert_inPlace_witness :
    (∃ m ∈ [{ demoUserMessage with target := some 0 }], m.target = some (0 : Nat)) ∧
    (upsertRoadwayMessage [{ demoUserMessage with target := some 0 }] 0 "1. A\nextra" "1. A"
        (extractBulletPoints "1. A\nextra") (some ExtractionStrategy.bullet)).length
      = ([{ demoUserMessage with target := some 0 }] : List ChatMessage).length ∧
    ((upsertRoadwayMessage [{ demoUserMessage with target := some 0 }] 0 "1. A\nextra" "1. A"
        (extractBulletPoints "1. A\nextra")
        (some ExtractionStrategy.bullet))[([{ demoUserMessage with target := some 0 }] :
          List ChatMessage).findIdx (fun m => m.target == some 0)]?).map (fun m => m.options)
      = some (some (extractBulletPoints "1. A\nextra")) :=
  ⟨⟨{ demoUserMessage with target := some 0 }, by decide, by decide⟩,
    upsert_inPlace_updates [{ demoUserMessage with target := some 0 }] 0 "1. A\nextra" "1. A"
      ⟨{ demoUserMessage with target := some 0 }, by decide, by decide⟩⟩

theorem generateBegin_ok (st : RoadwayState) (cfg : FlowCfg) (env : HostEnv) (id : Nat)
    (hp : cfg.profileId ≠ "") (hq : cfg.promptPreset ≠ "") (ht : id < st.chat.length)
    (hdup : id ∉ st.pending) (hbp : env.buildPromptResult = .ok ()) :
    generateBegin st cfg env id
      = ({ st with
            pending := jsSetAdd st.pending id
            spinning := true
            hostRequests := st.hostRequests + 1 }, .dispatched) := by
  rw [generateBegin, if_neg hp, if_neg hq, if_pos ht, if_neg hdup]
  simp only [hbp]

theorem upsert_mem (chat : List ChatMessage) (targetId : Nat) (content innerText : String)
    (actions : List String) (strategy : Option ExtractionStrategy) :
    ∃ m ∈ upsertRoadwayMessage chat targetId content innerText actions strategy,
      m.target = some targetId ∧
      m.mes = formatResponse innerText
        (if strategy = some ExtractionStrategy.bullet then some actions else Option.none) ∧
      m.options = some actions := by
  rw [upsertRoadwayMessage]
  by_cases h : chat.findIdx (fun m => m.target == some targetId) < chat.length
  · rw [dif_pos h]
    have htar : ((chat.get ⟨chat.findIdx (fun m => m.target == some targetId), h⟩).target
        == some targetId) = true := by
      simpa using List.findIdx_getElem (w := h)
    have h3 : (chat.get ⟨chat.findIdx (fun m => m.target == some targetId), h⟩).target
        = some targetId := by simpa using htar
    refine ⟨{ chat.get ⟨chat.findIdx (fun m => m.target == some targetId), h⟩ with
              mes := formatResponse innerText
                (if strategy = some ExtractionStrategy.bullet then some actions
                 else Option.none)
              rawContent := some content
              options := some actions }, ?_, by simpa using h3, rfl, rfl⟩
    exact List.getElem?_mem (List.getElem?_set_self h)
  · rw [dif_neg h]
    exact ⟨{ mes := formatResponse innerText
               (if strategy = some ExtractionStrategy.bullet then some actions
                else Option.none)
             name := systemUserName
             is_system := true
             is_user := false
             isSmallSys := true
             target := some targetId
             rawContent := some innerText
             options := some actions }, by simp, rfl, rfl, rfl⟩

/-- C7: when the bullet strategy extracts nothing from the response, the flow
emits exactly one user-visible warning, falls back to displaying the raw
response text instead of an action list, and completes without failing (no
error is surfaced and the chat is persisted). -/
theorem empty_extraction_fallback (st : RoadwayState) (cfg : FlowCfg) (env : HostEnv)
    (id : Nat) (content : String)
    (hp : cfg.profileId ≠ "") (hq : cfg.promptPreset ≠ "")
    (ht : id < st.chat.length) (hdup : id ∉ st.pending)
    (hbp : env.buildPromptResult = .ok ())
    (hsend : env.sendResult = .ok content)
    (hsave : env.saveResult = .ok ())
    (hstrat : (cfg.promptPresets.lookup cfg.promptPreset).map (fun p => p.extractionStrategy)
        = some ExtractionStrategy.bullet)
    (hempty : extractBulletPoints content = []) :
    ((runGenerateRoadway st cfg env id).1).warnings
      = st.warnings ++ [emptyExtractionWarning] ∧
    ((runGenerateRoadway st cfg env id).1).errors = st.errors ∧
    (∃ m ∈ ((runGenerateRoadway st cfg env id).1).chat,
      m.target = some id ∧ m.mes = MesBody.rawText content) ∧
    ((runGenerateRoadway st cfg env id).1).saveCalls = st.saveCalls + 1 := by
  have hbegin := generateBegin_ok st cfg env id hp hq ht hdup hbp
  rw [runGenerateRoadway, hbegin]
  simp only [generateFinish, hsend, hstrat, hsave]
  simp only [if_pos rfl, hempty, if_pos (And.intro rfl rfl), if_pos (Eq.refl ([] : List String))]
  refine ⟨rfl, rfl, ?_, rfl⟩
  obtain ⟨m, hm, h1, h2, h3⟩ := upsert_mem st.chat id content content []
    (some ExtractionStrategy.bullet)
  refine ⟨m, by simpa using hm, h1, ?_⟩
  rw [h2]
  simp [formatResponse]

theorem empty_extraction_fallback_witness :
    ((runGenerateRoadway demoState demoCfg
        { demoEnvOk with sendResult := .ok "no bullets here" } 0).1).warnings
      = demoState.warnings ++ [emptyExtractionWarning] ∧
    ((runGenerateRoadway demoState demoCfg
        { demoEnvOk with sendResult := .ok "no bullets here" } 0).1).errors
      = demoState.errors ∧
    (∃ m ∈ ((runGenerateRoadway demoState demoCfg
        { demoEnvOk with sendResult := .ok "no bullets here" } 0).1).chat,
      m.target = some 0 ∧ m.mes = MesBody.rawText "no bullets here") ∧
    ((runGenerateRoadway demoState demoCfg
        { demoEnvOk with sendResult := .ok "no bullets here" } 0).1).saveCalls
      = demoState.saveCalls + 1 :=
  empty_extraction_fallback demoState demoCfg
    { demoEnvOk with sendResult := .ok "no bullets here" } 0 "no bullets here"
    (by decide) (by decide) (by decide) (by decide) (by decide) (by decide) (by decide)
    (by decide) (by decide)

/-- C8: on every termination of a generation flow that passed the duplicate
check — normal success, a warned degradation, or a thrown error at any awaited
host step — the cleanup runs: the target id is no longer in the in-flight set
and the busy indicator is cleared; a thrown host-service error is additionally
logged and surfaced as a user-visible error while the flow still terminates
normally in the model (non-fatal). -/
theorem generate_cleanup_always (st : RoadwayState) (cfg : FlowCfg) (env : HostEnv)
    (id : Nat)
    (hp : cfg.profileId ≠ "") (hq : cfg.promptPreset ≠ "")
    (ht : id < st.chat.length) (hdup : id ∉ st.pending) :
    id ∉ ((runGenerateRoadway st cfg env id).1).pending ∧
    ((runGenerateRoadway st cfg env id).1).spinning = false ∧
    (∀ e, env.buildPromptResult = .error e →
      e ∈ ((runGenerateRoadway st cfg env id).1).logged ∧
      e ∈ ((runGenerateRoadway st cfg env id).1).errors) ∧
    (∀ e, env.buildPromptResult = .ok () → env.sendResult = .error e →
      e ∈ ((runGenerateRoadway st cfg env id).1).logged ∧
      e ∈ ((runGenerateRoadway st cfg env id).1).errors) ∧
    (∀ e c, env.buildPromptResult = .ok () → env.sendResult = .ok c →
      env.saveResult = .error e →
      e ∈ ((runGenerateRoadway st cfg env id).1).logged ∧
      e ∈ ((runGenerateRoadway st cfg env id).1).errors) := by
  obtain ⟨bp, send, save⟩ := env
  cases bp with
  | error e0 =>
    simp [runGenerateRoadway, generateBegin, hp, hq, ht, hdup, not_mem_jsSetDelete]
  | ok u =>
    cases u
    cases send with
    | error e1 =>
      simp [runGenerateRoadway, generateBegin, generateFinish, hp, hq, ht, hdup,
        not_mem_jsSetDelete]
    | ok c =>
      cases save with
      | error e2 =>
        simp [runGenerateRoadway, generateBegin, generateFinish, hp, hq, ht, hdup,
          not_mem_jsSetDelete]
      | ok u2 =>
        cases u2
        simp [runGenerateRoadway, generateBegin, generateFinish, hp, hq, ht, hdup,
          not_mem_jsSetDelete]

theorem generate_cleanup_witness :
    0 ∉ ((runGenerateRoadway demoState demoCfg demoEnvOk 0).1).pending ∧
    ((runGenerateRoadway demoState demoCfg demoEnvOk 0).1).spinning = false ∧
    (∀ e, demoEnvOk.buildPromptResult = .error e →
      e ∈ ((runGenerateRoadway demoState demoCfg demoEnvOk 0).1).logged ∧
      e ∈ ((runGenerateRoadway demoState demoCfg demoEnvOk 0).1).errors) ∧
    (∀ e, demoEnvOk.buildPromptResult = .ok () → demoEnvOk.sendResult = .error e →
      e ∈ ((runGenerateRoadway demoState demoCfg demoEnvOk 0).1).logged ∧
      e ∈ ((runGenerateRoadway demoState demoCfg demoEnvOk 0).1).errors) ∧
    (∀ e c, demoEnvOk.buildPromptResult = .ok () → demoEnvOk.sendResult = .ok c →
      demoEnvOk.saveResult = .error e →
      e ∈ ((runGenerateRoadway demoState demoCfg demoEnvOk 0).1).logged ∧
      e ∈ ((runGenerateRoadway demoState demoCfg demoEnvOk 0).1).errors) :=
  generate_cleanup_always demoState demoCfg demoEnvOk 0
    (by decide) (by decide) (by decide) (by decide)

/-- C9: committing an edited action via blur (or Enter without Shift, which
triggers the same blur commit) updates only the entry at that action's
positional index in the stored action list, leaves every other position of the
list and every other chat message unchanged, and calls chat persistence exactly
once; Shift+Enter is not intercepted, so the browser default inserts a literal
newline. -/
theorem edit_commit_single_index (chat : List ChatMessage) (mid idx : Nat) (t : String)
    (msg : ChatMessage) (opts : List String)
    (hm : chat[mid]? = some msg) (ho : msg.options = some opts)
    (hi : idx < opts.length) :
    (commitEdit chat mid idx t).2 = 1 ∧
    (commitEdit chat mid idx t).1
      = chat.set mid { msg with options := some (opts.set idx t) } ∧
    (opts.set idx t)[idx]? = some t ∧
    (∀ j, j ≠ idx → (opts.set idx t)[j]? = opts[j]?) ∧
    (∀ j, j ≠ mid → ((commitEdit chat mid idx t).1)[j]? = chat[j]?) ∧
    editKeydownEffect "Enter" false = .commitViaBlur ∧
    editKeydownEffect "Enter" true = .literalNewline := by
  have hc : commitEdit chat mid idx t
      = (chat.set mid { msg with options := some (opts.set idx t) }, 1) := by
    simp [commitEdit, hm, ho, jsArraySet, hi]
  refine ⟨by rw [hc], by rw [hc], ?_, ?_, ?_, by decide, by decide⟩
  · exact List.getElem?_set_self hi
  · intro j hj
    exact List.getElem?_set_ne (Ne.symm hj)
  · intro j hj
    rw [hc]
    exact List.getElem?_set_ne (Ne.symm hj)

theorem edit_commit_witness :
    (commitEdit [{ demoUserMessage with options := some ["a", "b", "c"] }] 0 1 "B").2 = 1 ∧
    (commitEdit [{ demoUserMessage with options := some ["a", "b", "c"] }] 0 1 "B").1
      = ([{ demoUserMessage with options := some ["a", "b", "c"] }] : List ChatMessage).set 0
          { { demoUserMessage with options := some ["a", "b", "c"] } with
            options := some ((["a", "b", "c"] : List String).set 1 "B") } ∧
    ((["a", "b", "c"] : List String).set 1 "B")[1]? = some "B" ∧
    (∀ j, j ≠ 1 → ((["a", "b", "c"] : List String).set 1 "B")[j]?
      = (["a", "b", "c"] : List String)[j]?) ∧
    (∀ j, j ≠ 0 →
      ((commitEdit [{ demoUserMessage with options := some ["a", "b", "c"] }] 0 1 "B").1)[j]?
        = ([{ demoUserMessage with options := some ["a", "b", "c"] }] : List ChatMessage)[j]?) ∧
    editKeydownEffect "Enter" false = .commitViaBlur ∧
    editKeydownEffect "Enter" true = .literalNewline :=
  edit_commit_single_index [{ demoUserMessage with options := some ["a", "b", "c"] }] 0 1 "B"
    { demoUserMessage with options := some ["a", "b", "c"] } ["a", "b", "c"]
    (by decide) (by decide) (by decide)

theorem lookup_recordSet_self (m : List (String × PromptPreset)) (k : String)
    (v : PromptPreset) : (recordSet m k v).lookup k = some v := by
  induction m with
  | nil => simp [recordSet]
  | cons hd tl ih =>
    obtain ⟨k0, v0⟩ := hd
    rw [recordSet]
    by_cases h : k0 = k
    · simp [h]
    · simp only [show (k0 == k) = false by simpa using h, Bool.false_eq_true, if_false]
      rw [List.lookup_cons]
      simp only [show (k == k0) = false by simpa using (Ne.symm h)]
      exact ih

theorem lookup_recordSet_ne (m : List (String × PromptPreset)) (k k' : String)
    (v : PromptPreset) (h : k' ≠ k) :
    (recordSet m k v).lookup k' = m.lookup k' := by
  induction m with
  | nil =>
    rw [recordSet, List.lookup_cons]
    simp [show (k' == k) = false by simpa using h]
  | cons hd tl ih =>
    obtain ⟨k0, v0⟩ := hd
    rw [recordSet]
    by_cases h0 : k0 = k
    · subst h0
      rw [if_pos (by simp), List.lookup_cons, List.lookup_cons]
      simp only [show (k' == k0) = false by simpa using h]
    · rw [if_neg (by simpa using h0), List.lookup_cons, List.lookup_cons]
      by_cases h1 : k' = k0
      · simp [h1]
      · simp only [show (k' == k0) = false by simpa using h1]
        exact ih

theorem lookup_recordDelete_self (m : List (String × PromptPreset)) (k : String) :
    (recordDelete m k).lookup k = Option.none := by
  rw [List.lookup_eq_none_iff]
  intro p hp
  have h2 : ¬ p.1 = k := by simpa using List.of_mem_filter hp
  simpa using fun h => h2 h.symm

theorem lookup_recordDelete_ne (m : List (String × PromptPreset)) (k k' : String)
    (h : k' ≠ k) : (recordDelete m k).lookup k' = m.lookup k' := by
  induction m with
  | nil => simp [recordDelete]
  | cons hd tl ih =>
    obtain ⟨k0, v0⟩ := hd
    rw [recordDelete] at ih ⊢
    rw [List.filter_cons]
    by_cases h0 : k0 = k
    · rw [if_neg (by simp [h0])]
      rw [List.lookup_cons]
      simp only [show (k' == k0) = false by rw [h0]; simpa using h]
      exact ih
    · rw [if_pos (by simpa using h0), List.lookup_cons, List.lookup_cons]
      by_cases h1 : k' = k0
      · simp [h1]
      · simp only [show (k' == k0) = false by simpa using h1]
        exact ih


/-- C6: renaming a prompt preset moves its full preset value from the old key
to the new key and removes the old key from the mapping; and after every
preset operation the select widget drives (create, rename, delete, select),
the currently selected preset name resolves to a key present in the mapping,
the reserved "default" key staying present throughout. -/
theorem preset_rename_and_selection_inv :
    (∀ (s : PresetStore) (o n : String) (v : PromptPreset),
      s.promptPresets.lookup o = some v → o ≠ n →
      (onAfterRename s o n).promptPresets.lookup n = some v ∧
      (onAfterRename s o n).promptPresets.lookup o = Option.none) ∧
    (∀ (s : PresetStore) (op : PresetOp),
      PresetInv s → PresetOpWF s op → PresetInv (applyPresetOp s op)) := by
  constructor
  · intro s o n v ho hon
    rw [onAfterRename, ho]
    refine ⟨?_, ?_⟩
    · rw [lookup_recordDelete_ne _ _ _ (Ne.symm hon), lookup_recordSet_self]
    · rw [lookup_recordDelete_self]
  · intro s op hinv hwf
    obtain ⟨hdef, hsel⟩ := hinv
    cases op with
    | createOp v =>
      simp only [applyPresetOp, onSelectChange, onAfterCreate, PresetInv, Option.getD_some]
      constructor
      · by_cases h : "default" = v
        · subst h
          rw [lookup_recordSet_self]
          simp
        · rw [lookup_recordSet_ne _ _ _ _ h]
          exact hdef
      · rw [lookup_recordSet_self]
        simp
    | renameOp o n =>
      obtain ⟨ho, hod, hon⟩ := hwf
      obtain ⟨v, hv⟩ := Option.isSome_iff_exists.mp ho
      have hpre : (onAfterRename s o n).promptPresets
          = recordDelete (recordSet s.promptPresets n v) o := by
        rw [onAfterRename, hv]
      have hdef2 : ((recordDelete (recordSet s.promptPresets n v) o).lookup "default").isSome
          = true := by
        rw [lookup_recordDelete_ne _ _ _ (Ne.symm hod)]
        by_cases h : "default" = n
        · subst h
          rw [lookup_recordSet_self]
          simp
        · rw [lookup_recordSet_ne _ _ _ _ h]
          exact hdef
      simp only [applyPresetOp]
      by_cases hps : s.promptPreset = o
      · rw [if_pos hps]
        simp only [onSelectChange, PresetInv, Option.getD_some, hpre]
        refine ⟨hdef2, ?_⟩
        rw [lookup_recordDelete_ne _ _ _ (Ne.symm hon), lookup_recordSet_self]
        simp
      · rw [if_neg hps]
        simp only [PresetInv, hpre]
        refine ⟨hdef2, ?_⟩
        have hpp : (onAfterRename s o n).promptPreset = s.promptPreset := by
          rw [onAfterRename, hv]
        rw [hpp, lookup_recordDelete_ne _ _ _ hps]
        by_cases h : s.promptPreset = n
        · subst h
          rw [lookup_recordSet_self]
          simp
        · rw [lookup_recordSet_ne _ _ _ _ h]
          exact hsel
    | deleteOp v =>
      simp only [applyPresetOp, onAfterDelete]
      by_cases hps : s.promptPreset = v
      · rw [if_pos hps]
        simp only [onSelectChange, PresetInv, Option.getD_none]
        have : ((recordDelete s.promptPresets v).lookup "default").isSome = true := by
          rw [lookup_recordDelete_ne _ _ _ (Ne.symm hwf)]
          exact hdef
        exact ⟨this, this⟩
      · rw [if_neg hps]
        simp only [PresetInv]
        refine ⟨?_, ?_⟩
        · rw [lookup_recordDelete_ne _ _ _ (Ne.symm hwf)]
          exact hdef
        · rw [lookup_recordDelete_ne _ _ _ hps]
          exact hsel
    | selectOp v =>
      cases v with
      | none =>
        simp only [applyPresetOp, onSelectChange, PresetInv, Option.getD_none]
        exact ⟨hdef, hdef⟩
      | some k =>
        simp only [applyPresetOp, onSelectChange, PresetInv, Option.getD_some]
        exact ⟨hdef, hwf k rfl⟩

theorem preset_rename_witness :
    ((demoStore.promptPresets.lookup "old" = some demoPreset ∧ ("old" : String) ≠ "new") ∧
      (onAfterRename demoStore "old" "new").promptPresets.lookup "new" = some demoPreset ∧
      (onAfterRename demoStore "old" "new").promptPresets.lookup "old" = Option.none) ∧
    (PresetInv demoStore ∧ PresetOpWF demoStore (PresetOp.renameOp "old" "new")) ∧
    PresetInv (applyPresetOp demoStore (PresetOp.renameOp "old" "new")) :=
  ⟨⟨⟨by decide, by decide⟩,
      preset_rename_and_selection_inv.1 demoStore "old" "new" demoPreset (by decide) (by decide)⟩,
    ⟨⟨by decide, by decide⟩, ⟨by decide, by decide, by decide⟩⟩,
    preset_rename_and_selection_inv.2 demoStore (PresetOp.renameOp "old" "new")
      ⟨by decide, by decide⟩ ⟨by decide, by decide, by decide⟩⟩

/-! ## Refinement of the line scanner to the per-line description -/

theorem takeWhile_append_stop {p : Char → Bool} {x z : List Char} {y : Char}
    (hy : p y = false) : (x ++ y :: z).takeWhile p = x.takeWhile p := by
  rw [List.takeWhile_append]
  split
  · rename_i hlen
    have hx : x.takeWhile p = x := (List.takeWhile_prefix p).eq_of_length hlen
    simp [List.takeWhile_cons, hy, hx]
  · rfl

theorem takeWhile_append_of_not_all {p : Char → Bool} {x z : List Char}
    (h : x.dropWhile p ≠ []) : (x ++ z).takeWhile p = x.takeWhile p := by
  rw [List.takeWhile_append]
  split
  · rename_i hlen
    have hx : x.takeWhile p = x := (List.takeWhile_prefix p).eq_of_length hlen
    have hlen2 := congrArg List.length (List.takeWhile_append_dropWhile p x)
    rw [List.length_append, hx] at hlen2
    have h0 : (x.dropWhile p).length = 0 := by omega
    exact absurd (List.eq_nil_of_length_eq_zero h0) h
  · rfl

theorem drop_append_le {x z : List Char} {n : Nat} (h : n ≤ x.length) :
    (x ++ z).drop n = x.drop n ++ z := by
  rw [List.drop_append_eq_append_drop]
  have : n - x.length = 0 := by omega
  rw [this, List.drop_zero]

theorem lineTerm_facts {t : Char} (h : lineTerm t = true) :
    jsWs t = true ∧ t.isDigit = false ∧ t ≠ '.' ∧ t ≠ '-' := by
  have h2 := h
  simp only [lineTerm, Bool.or_eq_true, beq_iff_eq] at h2
  rcases h2 with ((h2 | h2) | h2) | h2 <;> subst h2 <;>
    exact ⟨by decide, by decide, by decide, by decide⟩

theorem splitLines_ne_nil (s : List Char) : splitLines s ≠ [] := by
  cases s with
  | nil => simp [splitLines]
  | cons c cs =>
    rw [splitLines]
    split
    · simp
    · split <;> simp

theorem splitLines_all_nt {s : List Char} (h : ∀ c ∈ s, lineTerm c = false) :
    splitLines s = [s] := by
  induction s with
  | nil => rfl
  | cons c cs ih =>
    rw [splitLines]
    have hc : lineTerm c = false := h c (by simp)
    rw [if_neg (by simp [hc])]
    have ih2 := ih (fun x hx => h x (by simp [hx]))
    rw [ih2]

theorem splitLines_append_term {L A : List Char} {t : Char}
    (hL : ∀ c ∈ L, lineTerm c = false) (ht : lineTerm t = true) :
    splitLines (L ++ t :: A) = L :: splitLines A := by
  induction L with
  | nil =>
    simp only [List.nil_append]
    rw [splitLines, if_pos (by simp [ht])]
  | cons c cs ih =>
    have hc : lineTerm c = false := hL c (by simp)
    rw [List.cons_append, splitLines, if_neg (by simp [hc])]
    rw [ih (fun x hx => hL x (by simp [hx]))]

theorem parseMarker_nil : parseMarker [] = Option.none := by decide

theorem markerTail_suffix {rest b : List Char} (h : markerTail rest = some b) :
    ∃ n, b = rest.drop n := by
  rw [markerTail] at h
  split at h
  · split at h
    · exact absurd h (by simp)
    · exact ⟨0, by simpa using h.symm⟩
  · exact ⟨(rest.takeWhile jsWs).length, by simpa using h.symm⟩

theorem parseMarker_cases {s b : List Char} (h : parseMarker s = some b) :
    markerNum s = some b ∨ (markerNum s = Option.none ∧ markerDash s = some b) := by
  rw [parseMarker] at h
  cases hn : markerNum s with
  | some v =>
    rw [hn] at h
    simp only [Option.orElse] at h
    exact Or.inl (by simpa using h)
  | none =>
    rw [hn] at h
    simp only [Option.orElse] at h
    exact Or.inr ⟨rfl, h⟩

theorem markerNum_suffix {s b : List Char} (h : markerNum s = some b) :
    ∃ n, b = s.drop n := by
  rw [markerNum] at h
  by_cases hds : (s.takeWhile Char.isDigit).isEmpty
  · rw [if_pos hds] at h
    exact absurd h (by simp)
  · rw [if_neg hds] at h
    split at h
    · rename_i r heq
      obtain ⟨n, hn⟩ := markerTail_suffix h
      refine ⟨(s.takeWhile Char.isDigit).length + 1 + n, ?_⟩
      have h2 : s.drop ((s.takeWhile Char.isDigit).length + 1 + n)
          = ((s.drop (s.takeWhile Char.isDigit).length).drop 1).drop n := by
        rw [List.drop_drop, List.drop_drop]
        congr 1
        omega
      rw [h2, heq]
      simpa using hn
    · exact absurd h (by simp)

theorem markerDash_suffix {s b : List Char} (h : markerDash s = some b) :
    ∃ n, b = s.drop n := by
  rw [markerDash.eq_def] at h
  split at h
  · rename_i rest
    by_cases hws : (rest.takeWhile jsWs).isEmpty
    · rw [if_pos hws] at h
      exact absurd h (by simp)
    · rw [if_neg hws] at h
      refine ⟨1 + (rest.takeWhile jsWs).length, ?_⟩
      have h2 : b = rest.drop (rest.takeWhile jsWs).length := by simpa using h.symm
      have h3 : ('-' :: rest).drop (1 + (rest.takeWhile jsWs).length)
          = rest.drop (rest.takeWhile jsWs).length := by
        rw [Nat.add_comm, ← List.drop_drop]
        simp
      rw [h3]
      exact h2
  · exact absurd h (by simp)

theorem parseMarker_suffix {L b : List Char} (h : parseMarker L = some b) :
    ∃ n, b = L.drop n := by
  rcases parseMarker_cases h with h1 | ⟨_, h2⟩
  · exact markerNum_suffix h1
  · exact markerDash_suffix h2


theorem markerTail_append_term {rest A : List Char} {t : Char}
    (ht : jsWs t = true) (hM : rest.dropWhile jsWs ≠ []) :
    markerTail (rest ++ t :: A) = (markerTail rest).map (fun b => b ++ t :: A) := by
  have hws : (rest ++ t :: A).takeWhile jsWs = rest.takeWhile jsWs :=
    takeWhile_append_of_not_all hM
  rw [markerTail, markerTail, hws]
  by_cases he : (rest.takeWhile jsWs).isEmpty
  · rw [if_pos he, if_pos he]
    have hne : rest ≠ [] := by
      intro h0
      rw [h0] at hM
      simp at hM
    rw [if_neg (by simpa using hne), if_neg (by simp [hne])]
    rfl
  · rw [if_neg he, if_neg he]
    have hlen : (rest.takeWhile jsWs).length ≤ rest.length :=
      (List.takeWhile_prefix _).length_le
    rw [drop_append_le hlen]
    rfl

theorem markerNum_append_term {L A : List Char} {t : Char}
    (ht : lineTerm t = true) (hM : markerWsToEol L = false) :
    markerNum (L ++ t :: A) = (markerNum L).map (fun b => b ++ t :: A) := by
  obtain ⟨htw, htd, htdot, htdash⟩ := lineTerm_facts ht
  have hds : (L ++ t :: A).takeWhile Char.isDigit = L.takeWhile Char.isDigit :=
    takeWhile_append_stop htd
  rw [markerNum, markerNum, hds]
  by_cases he : (L.takeWhile Char.isDigit).isEmpty
  · rw [if_pos he, if_pos he]
    rfl
  · rw [if_neg he, if_neg he]
    have hlen : (L.takeWhile Char.isDigit).length ≤ L.length :=
      (List.takeWhile_prefix _).length_le
    rw [drop_append_le hlen]
    have hM0 := hM
    rw [markerWsToEol.eq_def] at hM0
    have hM12 := Bool.or_eq_false_iff.mp hM0
    have hM1 := hM12.1
    rw [Bool.and_eq_false_iff] at hM1
    have hM1 : (match L.drop (L.takeWhile Char.isDigit).length with
        | '.' :: rest => (rest.dropWhile jsWs).isEmpty
        | _ => false) = false := by
      rcases hM1 with h0 | h0
      · rw [Bool.not_eq_false'] at h0
        exact absurd h0 (by simpa using he)
      · exact h0
    rcases hdrop : L.drop (L.takeWhile Char.isDigit).length with _ | ⟨c, restL⟩
    · rw [List.nil_append]
      have hnone : (match t :: A with
          | '.' :: r => markerTail r
          | _ => Option.none) = Option.none := by
        split
        · rename_i r heq
          injection heq with h1 _
          exact absurd h1 htdot
        · rfl
      rw [hnone]
      rfl
    · rw [hdrop] at hM1
      by_cases hc : c = '.'
      · subst hc
        have hM2 : restL.dropWhile jsWs ≠ [] := by
          intro h0
          rw [show (match ('.' :: restL : List Char) with
              | '.' :: rest => (rest.dropWhile jsWs).isEmpty
              | _ => false) = (restL.dropWhile jsWs).isEmpty from rfl] at hM1
          rw [h0] at hM1
          simp at hM1
        simpa using markerTail_append_term htw hM2
      · have hLHS : (match c :: (restL ++ t :: A) with
            | '.' :: r => markerTail r
            | _ => Option.none) = Option.none := by
          split
          · rename_i r heq
            injection heq with h1 _
            exact absurd h1 hc
          · rfl
        have hRHS : (match c :: restL with
            | '.' :: r => markerTail r
            | _ => Option.none) = Option.none := by
          split
          · rename_i r heq
            injection heq with h1 _
            exact absurd h1 hc
          · rfl
        rw [List.cons_append, hLHS, hRHS]
        rfl

theorem markerDash_append_term {L A : List Char} {t : Char}
    (ht : lineTerm t = true) (hM : markerWsToEol L = false) :
    markerDash (L ++ t :: A) = (markerDash L).map (fun b => b ++ t :: A) := by
  obtain ⟨htw, htd, htdot, htdash⟩ := lineTerm_facts ht
  cases L with
  | nil =>
    simp only [List.nil_append]
    have hnone : markerDash (t :: A) = Option.none := by
      rw [markerDash.eq_def]
      split
      · rename_i rest heq
        injection heq with h1 _
        exact absurd h1 htdash
      · rfl
    rw [hnone]
    rfl
  | cons c restL =>
    by_cases hc : c = '-'
    · subst hc
      have hM2 : restL.dropWhile jsWs ≠ [] := by
        have hM0 := hM
        rw [markerWsToEol.eq_def] at hM0
        have hM12 := Bool.or_eq_false_iff.mp hM0
        have h0 : (match ('-' :: restL : List Char) with
            | '-' :: rest => (rest.dropWhile jsWs).isEmpty
            | _ => false) = false := hM12.2
        intro h1
        rw [show (match ('-' :: restL : List Char) with
            | '-' :: rest => (rest.dropWhile jsWs).isEmpty
            | _ => false) = (restL.dropWhile jsWs).isEmpty from rfl, h1] at h0
        simp at h0
      have hws : (restL ++ t :: A).takeWhile jsWs = restL.takeWhile jsWs :=
        takeWhile_append_of_not_all hM2
      rw [List.cons_append, markerDash, markerDash, hws]
      by_cases he : (restL.takeWhile jsWs).isEmpty
      · rw [if_pos he, if_pos he]
        rfl
      · rw [if_neg he, if_neg he]
        have hlen : (restL.takeWhile jsWs).length ≤ restL.length :=
          (List.takeWhile_prefix _).length_le
        rw [drop_append_le hlen]
        rfl
    · have hLHS : markerDash (c :: (restL ++ t :: A)) = Option.none := by
        rw [markerDash.eq_def]
        split
        · rename_i rest heq
          injection heq with h1 _
          exact absurd h1 hc
        · rfl
      have hRHS : markerDash (c :: restL) = Option.none := by
        rw [markerDash.eq_def]
        split
        · rename_i rest heq
          injection heq with h1 _
          exact absurd h1 hc
        · rfl
      rw [List.cons_append, hLHS, hRHS]
      rfl

theorem parseMarker_append_term {L A : List Char} {t : Char}
    (ht : lineTerm t = true) (hM : markerWsToEol L = false) :
    parseMarker (L ++ t :: A) = (parseMarker L).map (fun b => b ++ t :: A) := by
  rw [parseMarker, parseMarker, markerNum_append_term ht hM, markerDash_append_term ht hM]
  cases markerNum L <;> simp [Option.orElse]

theorem scanGo_nil (f : Nat) : scanGo f [] = [] := by
  cases f <;> rfl

theorem scanGo_cons (f : Nat) (c : Char) (cs : List Char) :
    scanGo (f + 1) (c :: cs)
      = match parseMarker (c :: cs) with
        | some bodyStart =>
          (bodyStart.takeWhile (fun c => !lineTerm c))
            :: scanGo f
                ((bodyStart.drop
                  (bodyStart.takeWhile (fun c => !lineTerm c)).length).drop 1)
        | Option.none =>
          scanGo f (((c :: cs).dropWhile (fun c => !lineTerm c)).drop 1) := rfl

theorem takeWhile_all {p : Char → Bool} {x : List Char}
    (h : ∀ c ∈ x, p c = true) : x.takeWhile p = x := by
  induction x with
  | nil => rfl
  | cons a l ih =>
    rw [List.takeWhile_cons, h a (by simp), if_pos rfl,
      ih (fun c hc => h c (by simp [hc]))]

theorem dropWhile_head_false {p : Char → Bool} {l : List Char} {x : Char}
    {xs : List Char} (h : l.dropWhile p = x :: xs) : p x = false := by
  induction l with
  | nil => simp at h
  | cons a l ih =>
    rw [List.dropWhile_cons] at h
    split at h
    · exact ih h
    · rename_i ha
      injection h with h1 _
      subst h1
      simpa using ha

/-- The scanner agrees with the per-line extraction whenever no line before
the last consists of a bare marker running out in trailing whitespace. -/
theorem scanGo_eq_splitLines (fuel : Nat) : ∀ (s : List Char), s.length ≤ fuel →
    noAbsorb s = true → scanGo fuel s = (splitLines s).filterMap parseMarker := by
  induction fuel with
  | zero =>
    intro s hf _
    have hs : s = [] := List.eq_nil_of_length_eq_zero (Nat.le_zero.mp hf)
    subst hs
    simp [scanGo_nil, splitLines, parseMarker_nil]
  | succ f ih =>
    intro s hf hna
    cases s with
    | nil => simp [scanGo_nil, splitLines, parseMarker_nil]
    | cons c cs =>
      have hsplit : (c :: cs).takeWhile (fun x => !lineTerm x)
          ++ (c :: cs).dropWhile (fun x => !lineTerm x) = c :: cs :=
        List.takeWhile_append_dropWhile _ _
      have hL : ∀ x ∈ (c :: cs).takeWhile (fun x => !lineTerm x), lineTerm x = false := by
        intro x hx
        have := List.mem_takeWhile_imp hx
        simpa using this
      rcases hA : (c :: cs).dropWhile (fun x => !lineTerm x) with _ | ⟨t, A1⟩
      · -- the whole text is a single terminator-free line
        rw [hA, List.append_nil] at hsplit
        have hLall : ∀ x ∈ (c :: cs), lineTerm x = false := by
          intro x hx
          exact hL x (by rw [hsplit]; exact hx)
        have hlines : splitLines (c :: cs) = [c :: cs] := splitLines_all_nt hLall
        rw [scanGo_cons, hlines]
        cases hpm : parseMarker (c :: cs) with
        | none => simp [hpm, hA, scanGo_nil]
        | some b =>
          obtain ⟨n, hb⟩ := parseMarker_suffix hpm
          have hball : ∀ x ∈ b, lineTerm x = false := by
            intro x hx
            exact hLall x (List.drop_subset n (c :: cs) (hb ▸ hx))
          have hbody : b.takeWhile (fun x => !lineTerm x) = b :=
            takeWhile_all (fun x hx => by simp [hball x hx])
          simp only [hpm, hbody, List.drop_length, List.drop_nil, scanGo_nil]
          simp [List.filterMap_cons, hpm]
      · -- first line L, terminator t, remainder A1
        have hterm : lineTerm t = true := by
          have := dropWhile_head_false hA
          simpa using this
        have hs2 : (c :: cs).takeWhile (fun x => !lineTerm x) ++ t :: A1 = c :: cs := by
          rw [← hA]
          exact hsplit
        have hlines : splitLines (c :: cs)
            = ((c :: cs).takeWhile (fun x => !lineTerm x)) :: splitLines A1 := by
          conv_lhs => rw [← hs2]
          exact splitLines_append_term hL hterm
        have hnacons := hna
        rw [noAbsorb, hlines] at hnacons
        have hnn := splitLines_ne_nil A1
        rcases hsl : splitLines A1 with _ | ⟨l0, ls⟩
        · exact absurd hsl hnn
        · rw [hsl] at hnacons
          rw [List.dropLast_cons₂, List.all_cons] at hnacons
          simp only [Bool.and_eq_true] at hnacons
          have hMl : markerWsToEol ((c :: cs).takeWhile (fun x => !lineTerm x)) = false := by
            simpa using hnacons.1
          have hna1 : noAbsorb A1 = true := by
            rw [noAbsorb, hsl]
            exact hnacons.2
          have hlen1 : A1.length ≤ f := by
            have := congrArg List.length hs2
            simp only [List.length_append, List.length_cons] at this
            simp only [List.length_cons] at hf
            omega
          have hpm_eq : parseMarker (c :: cs)
              = (parseMarker ((c :: cs).takeWhile (fun x => !lineTerm x))).map
                  (fun b => b ++ t :: A1) := by
            conv_lhs => rw [← hs2]
            exact parseMarker_append_term hterm hMl
          rw [scanGo_cons, hlines]
          cases hpm : parseMarker ((c :: cs).takeWhile (fun x => !lineTerm x)) with
          | none =>
            rw [hpm] at hpm_eq
            simp only [Option.map_none'] at hpm_eq
            rw [hpm_eq, hA]
            simp only [List.drop_succ_cons, List.drop_zero]
            rw [ih A1 hlen1 hna1, hsl]
            simp [List.filterMap_cons, hpm]
          | some b =>
            rw [hpm] at hpm_eq
            simp only [Option.map_some'] at hpm_eq
            rw [hpm_eq]
            obtain ⟨n, hb⟩ := parseMarker_suffix hpm
            have hball : ∀ x ∈ b, lineTerm x = false := by
              intro x hx
              exact hL x (List.drop_subset n _ (hb ▸ hx))
            have hbody : (b ++ t :: A1).takeWhile (fun x => !lineTerm x) = b := by
              rw [takeWhile_append_stop (by simp [hterm])]
              exact takeWhile_all (fun x hx => by simp [hball x hx])
            simp only [hbody]
            have hdrop2 : ((b ++ t :: A1).drop b.length).drop 1 = A1 := by
              rw [List.drop_left]
              simp
            rw [hdrop2, ih A1 hlen1 hna1, hsl]
            simp [List.filterMap_cons, hpm]

/-- C1 counterexample: on the input "1.\nPlain" the marker "1." is followed by
whitespace only via the line terminator, which `\s+` consumes, so the scanner
takes the body from the next line: the non-marker line's text "Plain" is kept,
while the claim's per-line description (keep only marker lines, drop all
others) yields the empty list. -/
theorem extract_not_lineByLine_cex :
    extractBulletPoints "1.\nPlain" = ["Plain"] ∧
    specLineExtract "1.\nPlain" = [] := by
  decide

/-- C1 (amended): extraction of "1. Do X\n2. Do Y\n- Do Z\nPlain line" yields
exactly ["Do X", "Do Y", "Do Z"]; and for every input none of whose
non-final lines consists of a bare marker followed only by whitespace to the
end of the line, the per-line description holds: only lines beginning with an
integer-period marker (followed by whitespace or directly by text) or a
hyphen-whitespace marker are kept, each stripped of its leading marker and
surrounding whitespace, all other lines are dropped, and order is preserved.
(On the excluded inputs the marker's whitespace run crosses the line
terminator and the body is taken from the line where the run ends.) -/
theorem extract_lineByLine_of_noAbsorb (t : String)
    (h : noAbsorb (stripThinkL t.data) = true) :
    extractBulletPoints t = specLineExtract t ∧
    extractBulletPoints "1. Do X\n2. Do Y\n- Do Z\nPlain line"
      = ["Do X", "Do Y", "Do Z"] := by
  constructor
  · rw [extractBulletPoints, specLineExtract, extractScanL]
    rw [scanGo_eq_splitLines _ _ (le_refl _) h]
    rw [List.map_filterMap]
  · decide

theorem extract_lineByLine_witness :
    noAbsorb (stripThinkL ("1. Do X\n2. Do Y\n- Do Z\nPlain line" : String).data) = true ∧
    (extractBulletPoints "1. Do X\n2. Do Y\n- Do Z\nPlain line"
        = specLineExtract "1. Do X\n2. Do Y\n- Do Z\nPlain line" ∧
      extractBulletPoints "1. Do X\n2. Do Y\n- Do Z\nPlain line"
        = ["Do X", "Do Y", "Do Z"]) :=
  ⟨by decide, extract_lineByLine_of_noAbsorb _ (by decide)⟩

theorem stripGo_cons (f : Nat) (c : Char) (cs : List Char) :
    stripGo (f + 1) (c :: cs)
      = match dropTagCi openTag (c :: cs) with
        | some afterOpen =>
          match findClose afterOpen with
          | some afterClose => stripGo f afterClose
          | Option.none => c :: stripGo f cs
        | Option.none => c :: stripGo f cs := rfl

theorem hasOpenTag_cons (c : Char) (cs : List Char) :
    hasOpenTag (c :: cs) = ((dropTagCi openTag (c :: cs)).isSome || hasOpenTag cs) := rfl

theorem stripGo_id (f : Nat) : ∀ (s : List Char), hasOpenTag s = false →
    stripGo f s = s := by
  induction f with
  | zero => intro s _; rfl
  | succ f ih =>
    intro s h
    cases s with
    | nil => rfl
    | cons c cs =>
      rw [hasOpenTag_cons] at h
      obtain ⟨h1, h2⟩ := Bool.or_eq_false_iff.mp h
      have hnone : dropTagCi openTag (c :: cs) = Option.none := by
        cases hd : dropTagCi openTag (c :: cs) with
        | none => rfl
        | some v =>
          rw [hd] at h1
          simp at h1
      rw [stripGo_cons, hnone, ih cs h2]

theorem stripThinkL_id {s : List Char} (h : hasOpenTag s = false) :
    stripThinkL s = s := stripGo_id s.length s h

theorem digitChar_facts {m : Nat} (h : m < 10) :
    (Nat.digitChar m).isDigit = true ∧ lineTerm (Nat.digitChar m) = false := by
  interval_cases m <;> exact ⟨by decide, by decide⟩

theorem toDigitsCore_facts (fuel : Nat) : ∀ (n : Nat) (acc : List Char),
    (∀ c ∈ acc, c.isDigit = true ∧ lineTerm c = false) →
    ∀ c ∈ Nat.toDigitsCore 10 fuel n acc, c.isDigit = true ∧ lineTerm c = false := by
  induction fuel with
  | zero =>
    intro n acc hacc c hc
    rw [Nat.toDigitsCore] at hc
    exact hacc c hc
  | succ f ih =>
    intro n acc hacc c hc
    rw [Nat.toDigitsCore] at hc
    have hdig := digitChar_facts (Nat.mod_lt n (by norm_num))
    split at hc
    · rcases List.mem_cons.mp hc with hc1 | hc2
      · subst hc1
        exact hdig
      · exact hacc c hc2
    · refine ih (n / 10) (Nat.digitChar (n % 10) :: acc) ?_ c hc
      intro x hx
      rcases List.mem_cons.mp hx with hx1 | hx2
      · subst hx1
        exact hdig
      · exact hacc x hx2

theorem toDigitsCore_ne_nil (fuel : Nat) : ∀ (n : Nat) (acc : List Char),
    acc ≠ [] → Nat.toDigitsCore 10 fuel n acc ≠ [] := by
  induction fuel with
  | zero =>
    intro n acc hacc
    rw [Nat.toDigitsCore]
    exact hacc
  | succ f ih =>
    intro n acc hacc
    rw [Nat.toDigitsCore]
    split
    · simp
    · exact ih (n / 10) _ (by simp)

theorem repr_facts (n : Nat) :
    (Nat.repr n).data ≠ [] ∧
    ∀ c ∈ (Nat.repr n).data, c.isDigit = true ∧ lineTerm c = false := by
  have hdata : (Nat.repr n).data = Nat.toDigits 10 n := rfl
  rw [hdata, Nat.toDigits]
  constructor
  · rw [Nat.toDigitsCore]
    split
    · simp
    · exact toDigitsCore_ne_nil n (n / 10) _ (by simp)
  · exact toDigitsCore_facts (n + 1) n [] (by simp)

theorem length_dropWhile_le (p : Char → Bool) (l : List Char) :
    (l.dropWhile p).length ≤ l.length := by
  induction l with
  | nil => simp
  | cons a l ih =>
    rw [List.dropWhile_cons]
    split
    · exact Nat.le_trans ih (by simp)
    · simp

theorem trimChars_length_le (s : List Char) :
    (trimChars s).length ≤ (s.dropWhile jsWs).length := by
  rw [trimChars, List.length_reverse]
  have := length_dropWhile_le jsWs (s.dropWhile jsWs).reverse
  simpa using this

theorem head_not_ws {a : List Char} (hne : a ≠ []) (htr : trimChars a = a) :
    a.takeWhile jsWs = [] := by
  cases a with
  | nil => exact absurd rfl hne
  | cons c0 rest =>
    rw [List.takeWhile_cons]
    by_cases hws : jsWs c0 = true
    · exfalso
      have hlen := trimChars_length_le (c0 :: rest)
      rw [htr, List.dropWhile_cons, if_pos hws] at hlen
      have := length_dropWhile_le jsWs rest
      simp only [List.length_cons] at hlen
      omega
    · rw [if_neg hws]

theorem numbered_line_data (k : Nat) (a : String) :
    (Nat.repr k ++ ". " ++ a).data = (Nat.repr k).data ++ '.' :: ' ' :: a.data := by
  rw [String.data_append, String.data_append]
  rw [show (". " : String).data = ['.', ' '] from by decide]
  rw [List.append_assoc]
  rfl

theorem parseMarker_numbered_line {d a : List Char} (hd : d ≠ [])
    (hdig : ∀ c ∈ d, c.isDigit = true) (ha : a ≠ []) (hws : a.takeWhile jsWs = []) :
    parseMarker (d ++ '.' :: ' ' :: a) = some a := by
  have hds : (d ++ '.' :: ' ' :: a).takeWhile Char.isDigit = d := by
    rw [takeWhile_append_stop (by decide)]
    exact takeWhile_all hdig
  have htw : (' ' :: a).takeWhile jsWs = [' '] := by
    rw [List.takeWhile_cons, if_pos (by decide), hws]
  have hnum : markerNum (d ++ '.' :: ' ' :: a) = some a := by
    rw [markerNum, hds, if_neg (by simpa using hd), List.drop_left]
    show markerTail (' ' :: a) = some a
    rw [markerTail, htw]
    rw [if_neg (by simp)]
    simp
  rw [parseMarker, hnum]
  rfl

theorem dropWhile_eq_self_of_takeWhile_nil {a : List Char}
    (hws : a.takeWhile jsWs = []) : a.dropWhile jsWs = a := by
  have h0 := List.takeWhile_append_dropWhile jsWs a
  rw [hws] at h0
  simpa using h0

theorem markerWsToEol_numbered_line {d a : List Char} (hd : d ≠ [])
    (hdig : ∀ c ∈ d, c.isDigit = true) (ha : a ≠ []) (hws : a.takeWhile jsWs = []) :
    markerWsToEol (d ++ '.' :: ' ' :: a) = false := by
  have hds : (d ++ '.' :: ' ' :: a).takeWhile Char.isDigit = d := by
    rw [takeWhile_append_stop (by decide)]
    exact takeWhile_all hdig
  have hdw : (' ' :: a).dropWhile jsWs = a := by
    rw [List.dropWhile_cons, if_pos (by decide)]
    exact dropWhile_eq_self_of_takeWhile_nil hws
  rw [markerWsToEol.eq_def, hds, List.drop_left]
  have hfirst : (match ('.' :: ' ' :: a : List Char) with
      | '.' :: rest => (rest.dropWhile jsWs).isEmpty
      | _ => false) = ((' ' :: a).dropWhile jsWs).isEmpty := rfl
  rw [hfirst, hdw]
  obtain ⟨d0, d1, hd01⟩ := List.exists_cons_of_ne_nil hd
  have hsecond : (match d ++ '.' :: ' ' :: a with
      | '-' :: rest => (rest.dropWhile jsWs).isEmpty
      | _ => false) = false := by
    rw [hd01, List.cons_append]
    have hd0 : d0 ≠ '-' := by
      intro h0
      have := hdig d0 (by rw [hd01]; simp)
      rw [h0] at this
      exact absurd this (by decide)
    split
    · rename_i rest heq
      injection heq with heq1 _
      exact absurd heq1 hd0
    · rfl
  rw [hsecond]
  simp [List.isEmpty_iff, ha]

theorem mem_numberLines {k : Nat} {actions : List String} {x : String} :
    x ∈ numberLines k actions →
    ∃ (j : Nat) (a : String), a ∈ actions ∧ x = Nat.repr j ++ ". " ++ a := by
  induction actions generalizing k with
  | nil => intro hx; simp [numberLines] at hx
  | cons a as ih =>
    intro hx
    rw [numberLines] at hx
    rcases List.mem_cons.mp hx with hx1 | hx2
    · exact ⟨k, a, by simp, hx1⟩
    · obtain ⟨j, b, hb, hxb⟩ := ih hx2
      exact ⟨j, b, by simp [hb], hxb⟩

theorem joinLines_data_cons (k : Nat) (a : String) (as : List String) (hne : as ≠ []) :
    (joinLines (numberLines k (a :: as))).data
      = ((Nat.repr k).data ++ '.' :: ' ' :: a.data)
          ++ '\n' :: (joinLines (numberLines (k + 1) as)).data := by
  rw [numberLines]
  obtain ⟨b, bs, hbs⟩ := List.exists_cons_of_ne_nil hne
  subst hbs
  rw [numberLines]
  show ((Nat.repr k ++ ". " ++ a) ++ "\n"
      ++ joinLines ((Nat.repr (k + 1) ++ ". " ++ b) :: numberLines (k + 1 + 1) bs)).data
    = ((Nat.repr k).data ++ '.' :: ' ' :: a.data)
        ++ '\n' :: (joinLines ((Nat.repr (k + 1) ++ ". " ++ b) :: numberLines (k + 1 + 1) bs)).data
  rw [String.data_append, String.data_append, numbered_line_data]
  simp

theorem renderLine_nt (k : Nat) (a : String)
    (h2 : ∀ c ∈ a.data, lineTerm c = false) :
    ∀ c ∈ (Nat.repr k ++ ". " ++ a).data, lineTerm c = false := by
  intro c hc
  rw [numbered_line_data] at hc
  rcases List.mem_append.mp hc with hc1 | hc2
  · exact ((repr_facts k).2 c hc1).2
  · rcases List.mem_cons.mp hc2 with hc3 | hc4
    · subst hc3; decide
    · rcases List.mem_cons.mp hc4 with hc5 | hc6
      · subst hc5; decide
      · exact h2 c hc6

theorem splitLines_render (actions : List String) :
    ∀ (k : Nat), actions ≠ [] →
    (∀ a ∈ actions, ∀ c ∈ a.data, lineTerm c = false) →
    splitLines (joinLines (numberLines k actions)).data
      = (numberLines k actions).map String.data := by
  induction actions with
  | nil => intro k hne _; exact absurd rfl hne
  | cons a as ih =>
    intro k _ h2
    cases as with
    | nil =>
      show splitLines (Nat.repr k ++ ". " ++ a).data = [(Nat.repr k ++ ". " ++ a).data]
      exact splitLines_all_nt (renderLine_nt k a (h2 a (by simp)))
    | cons b bs =>
      rw [joinLines_data_cons k a (b :: bs) (by simp)]
      rw [splitLines_append_term
        (by rw [← numbered_line_data]; exact renderLine_nt k a (h2 a (by simp)))
        (by decide)]
      rw [ih (k + 1) (by simp) (fun x hx c hc => h2 x (by simp [hx]) c hc)]
      simp [numberLines, numbered_line_data]

theorem noAbsorb_render (actions : List String) (k : Nat)
    (h1 : ∀ a ∈ actions, a.data ≠ [])
    (h2 : ∀ a ∈ actions, ∀ c ∈ a.data, lineTerm c = false)
    (h3 : ∀ a ∈ actions, trimChars a.data = a.data) :
    noAbsorb (joinLines (numberLines k actions)).data = true := by
  cases actions with
  | nil => exact (by decide : noAbsorb ("" : String).data = true)
  | cons a as =>
    rw [noAbsorb, splitLines_render (a :: as) k (by simp) h2]
    apply List.all_eq_true.mpr
    intro x hx
    have hx2 := List.dropLast_subset _ hx
    obtain ⟨ls, hls, hlx⟩ := List.mem_map.mp hx2
    obtain ⟨j, b, hb, hlb⟩ := mem_numberLines hls
    subst hlx
    rw [hlb, numbered_line_data]
    have hM := markerWsToEol_numbered_line (repr_facts j).1
      (fun c hc => ((repr_facts j).2 c hc).1) (h1 b hb) (head_not_ws (h1 b hb) (h3 b hb))
    simp [hM]

theorem filterMap_numbered (actions : List String) :
    ∀ (k : Nat), (∀ a ∈ actions, a.data ≠ []) →
    (∀ a ∈ actions, trimChars a.data = a.data) →
    ((numberLines k actions).map String.data).filterMap parseMarker
      = actions.map String.data := by
  induction actions with
  | nil => intro k _ _; rfl
  | cons a as ih =>
    intro k h1 h3
    rw [numberLines, List.map_cons, List.filterMap_cons, numbered_line_data]
    have hpm := parseMarker_numbered_line (repr_facts k).1
      (fun c hc => ((repr_facts k).2 c hc).1) (h1 a (by simp))
      (head_not_ws (h1 a (by simp)) (h3 a (by simp)))
    rw [hpm]
    rw [ih (k + 1) (fun x hx => h1 x (by simp [hx])) (fun x hx => h3 x (by simp [hx]))]
    rfl

/-- C10 (round trip): for every list of non-empty, single-line, trimmed action
strings whose rendered display text contains no reasoning-block opening
delimiter, applying the bullet extractor to the display text (each action
prefixed by its 1-based index and ". ", joined with newlines) returns exactly
the original list: re-extracting a rendered annotation body is lossless. -/
theorem render_extract_roundTrip (actions : List String)
    (h1 : ∀ a ∈ actions, a.data ≠ [])
    (h2 : ∀ a ∈ actions, ∀ c ∈ a.data, lineTerm c = false)
    (h3 : ∀ a ∈ actions, trimChars a.data = a.data)
    (h4 : hasOpenTag (renderNumbered actions).data = false) :
    extractBulletPoints (renderNumbered actions) = actions := by
  cases actions with
  | nil => exact (by decide : extractBulletPoints (renderNumbered []) = [])
  | cons a as =>
    rw [renderNumbered] at h4 ⊢
    rw [extractBulletPoints, stripThinkL_id h4, extractScanL,
      scanGo_eq_splitLines _ _ (le_refl _) (noAbsorb_render (a :: as) 1 h1 h2 h3),
      splitLines_render (a :: as) 1 (by simp) h2,
      filterMap_numbered (a :: as) 1 h1 h3,
      List.map_map]
    have hcong : ∀ x ∈ (a :: as),
        ((fun b => (trimChars b).asString) ∘ String.data) x = id x := by
      intro x hx
      show (trimChars x.data).asString = x
      rw [h3 x hx, asString_data]
    rw [List.map_congr_left hcong, List.map_id]

theorem render_extract_roundTrip_witness :
    ((∀ a ∈ (["Do X", "Do Y"] : List String), a.data ≠ []) ∧
      (∀ a ∈ (["Do X", "Do Y"] : List String), ∀ c ∈ a.data, lineTerm c = false) ∧
      (∀ a ∈ (["Do X", "Do Y"] : List String), trimChars a.data = a.data) ∧
      hasOpenTag (renderNumbered ["Do X", "Do Y"]).data = false) ∧
    extractBulletPoints (renderNumbered ["Do X", "Do Y"]) = ["Do X", "Do Y"] :=
  ⟨⟨by decide, by decide, by decide, by decide⟩,
    render_extract_roundTrip ["Do X", "Do Y"] (by decide) (by decide) (by decide) (by decide)⟩

end Roadway
